import Mathlib

/-!
Shallow embedding of the pose-scoring pipeline implemented in
`src/pages/WorkoutSession.tsx`.

Modelling conventions:
* JS numbers are modelled by a linear ordered field with floor: `ℚ` for the
  parts the claims evaluate, `ℝ` where the source uses transcendental
  functions (`Math.acos`, `Math.atan2`, `Math.pow`).  The arithmetic defs are
  polymorphic so one definition serves both instantiations.
* JS `Record<string, number>` objects become association lists, JS arrays
  become lists; `m[k] ?? d` becomes an `Option.getD`.
* Fallible code (early `return null`, accesses that would throw on a missing
  landmark) returns `Option`.
-/

namespace Workout

variable {α : Type} [LinearOrderedField α] [FloorRing α]

/-- Association-list lookup, modelling JS object property access `m[k]`
(`none` models `undefined`). -/
def getv {β : Type} (m : List (String × β)) (k : String) : Option β :=
  match m with
  | [] => none
  | (k2, v) :: rest => if k2 = k then some v else getv rest k

/-- `vis[i] ?? 0` — visibility array access with default 0. -/
def visAt (vis : List α) (i : ℕ) : α :=
  vis.getD i 0

/-- `visOK(names, vis, thresh)`: every landmark of `names` has
`(vis[i] ?? 0) >= thresh`. -/
def visOK (names : List ℕ) (vis : List α) (thresh : α) : Bool :=
  names.all (fun i => decide (thresh ≤ visAt vis i))

/-- `JOINT_LM`: joint name → required MediaPipe landmark indices
(11 = LEFT_SHOULDER, 12 = RIGHT_SHOULDER, 13 = LEFT_ELBOW, 14 = RIGHT_ELBOW,
15 = LEFT_WRIST, 16 = RIGHT_WRIST, 23 = LEFT_HIP, 24 = RIGHT_HIP,
25 = LEFT_KNEE, 26 = RIGHT_KNEE, 27 = LEFT_ANKLE, 28 = RIGHT_ANKLE). -/
def JOINT_LM : List (String × List ℕ) :=
  [("left_elbow", [11, 13, 15]),
   ("right_elbow", [12, 14, 16]),
   ("left_knee", [23, 25, 27]),
   ("right_knee", [24, 26, 28]),
   ("left_shoulder", [13, 11, 23]),
   ("right_shoulder", [14, 12, 24]),
   ("left_hip", [11, 23, 25]),
   ("right_hip", [12, 24, 26]),
   ("spine_tilt", [11, 12, 23, 24])]

/-- JS `x % y` for a nonnegative dividend and positive divisor
(the only way the source uses `%` on numbers). -/
def jsMod (x y : α) : α :=
  x - y * (⌊x / y⌋ : ℤ)

/-- `wrapDiff(a, b)`: wrap an angle difference to [0, 180]. -/
def wrapDiff (a b : α) : α :=
  let d := jsMod |a - b| 360
  if 180 < d then 360 - d else d

/-- One entry of the scorer's `rows` array:
`[joint, diffDeg, normErr, tolDeg, weight]`. -/
structure Row (α : Type) where
  joint : String
  diff : α
  n : α
  tol : α
  w : α
deriving DecidableEq

/-- Visibility gate for one joint: `JOINT_LM[k]` exists and some required
landmark is below threshold 0.5 ⇒ gated out (`lmReq && !visOK(lmReq, visibility, 0.5)`). -/
def survives (k : String) (vis : List α) : Bool :=
  match getv JOINT_LM k with
  | some req => visOK req vis (1 / 2)
  | none => true

/-- The scorer's row-building loop over `refKeys`: skip joints absent from
`userAngles`, skip gated-out joints, otherwise record
`[k, diff, min(diff/tol, 1), tol, weight]` with
`tol = max(1e-6, tolerance_deg[k] ?? 12)` and `weight = weights[k] ?? 1`. -/
def mkRows (ref tolM wM ua : List (String × α)) (vis : List α) : List (Row α) :=
  match ref with
  | [] => []
  | (k, r) :: rest =>
    let tailRows := mkRows rest tolM wM ua vis
    match getv ua k with
    | none => tailRows
    | some u =>
      if survives k vis then
        let diff := wrapDiff u r
        let t := max (1 / 1000000) ((getv tolM k).getD 12)
        let w := (getv wM k).getD 1
        ⟨k, diff, min (diff / t) 1, t, w⟩ :: tailRows
      else tailRows

/-- Sort key of `rows.sort((a, b) => b[2] - a[2])`: descending by normError. -/
def rDesc : Row α → Row α → Prop := fun a b => b.n ≤ a.n

instance rDescDecidable : DecidableRel (rDesc (α := α)) :=
  fun a b => inferInstanceAs (Decidable (b.n ≤ a.n))

instance rDescTotal : IsTotal (Row α) rDesc :=
  ⟨fun a b => le_total b.n a.n⟩

instance rDescTrans : IsTrans (Row α) rDesc :=
  ⟨fun _ _ _ h1 h2 => le_trans h2 h1⟩

/-- `rows.sort((a, b) => b[2] - a[2])`: JS sort is stable, and insertion sort
with `rDesc` is the stable descending sort by normError. -/
def sortRowsDesc (rs : List (Row α)) : List (Row α) :=
  List.insertionSort rDesc rs

/-- `num`: the `num += n * w` accumulation over a row list. -/
def sumNW : List (Row α) → α
  | [] => 0
  | r :: rest => r.n * r.w + sumNW rest

/-- `den`: the `den += w` accumulation over a row list. -/
def sumW : List (Row α) → α
  | [] => 0
  | r :: rest => r.w + sumW rest

/-- `const mae = den ? num / den : 1` over the given (already trimmed) rows. -/
def maeOf (used : List (Row α)) : α :=
  if sumW used = 0 then 1 else sumNW used / sumW used

/-- The template records consumed by the scorer.  Each field is `Option` to
model a missing (`undefined`) property. -/
structure Template (α : Type) where
  angles_deg : Option (List (String × α))
  tolerance_deg : Option (List (String × α))
  weights : Option (List (String × α))

/-- The scorer's return object.  `sRaw` is `max(0, 1 - mae)` (present exactly
when `score` is non-null; the displayed score is `round(100 * sRaw ** 0.6)`,
split off below because it needs real exponentiation).  The early returns of
the source omit `coverage`/`expected`/`visibleCount`; the caller destructures
them with default 0, which is what the first constructor stores. -/
structure ScoreOut (α : Type) where
  sRaw : Option α
  rows : List (Row α)
  jointErr : List (String × α)
  coverage : α
  expected : ℕ
  visibleCount : ℕ
deriving DecidableEq

/-- `scoreAgainstTemplate(userAngles, tpl, visibility)` up to (and including)
`sRaw`; mirrors the source: missing `angles_deg` ⇒ null score; empty `rows` ⇒
null score; otherwise sort descending by normError, drop the single worst row
(`rows.slice(1)`), aggregate the weighted mean error, and report
`jointErr`/`coverage` from all surviving rows. -/
def scoreAgainstTemplate (tpl : Template α) (userAngles : List (String × α))
    (vis : List α) : ScoreOut α :=
  match tpl.angles_deg with
  | none => ⟨none, [], [], 0, 0, 0⟩
  | some ref =>
    let tolM := tpl.tolerance_deg.getD []
    let wM := tpl.weights.getD []
    let rows := mkRows ref tolM wM userAngles vis
    let expected := ref.length
    let visibleCount := rows.length
    match rows with
    | [] => ⟨none, [], [], 0, expected, visibleCount⟩
    | r0 :: rest =>
      let sorted := sortRowsDesc (r0 :: rest)
      let used := sorted.tail
      let sRaw := max 0 (1 - maeOf used)
      ⟨some sRaw, sorted, sorted.map (fun r => (r.joint, r.n)),
        if expected = 0 then 0 else (visibleCount : α) / (expected : α),
        expected, visibleCount⟩

/-- `Math.round(100 * Math.pow(sRaw, 0.6))` — the non-linear lift and rounding
applied to `sRaw`. -/
noncomputable def scoreValR (s : ℝ) : ℤ :=
  round ((100 : ℝ) * s ^ (0.6 : ℝ))

/-- The `score` field of the scorer's result, for the rational instantiation. -/
noncomputable def angleScore (tpl : Template ℚ) (ua : List (String × ℚ))
    (vis : List ℚ) : Option ℤ :=
  ((scoreAgainstTemplate tpl ua vis).sRaw).map (fun s => scoreValR (s : ℝ))

/-- The blend step of `pose.onResults`: when the angle score exists,
`round(0.6 * sAngle + 0.25 * sBone + 0.15 * sEmbed)`; otherwise
`round(0.65 * sBone + 0.35 * sEmbed)` provided `sBone || sEmbed` is truthy. -/
def blendScore (sAngle : Option ℤ) (sBone sEmbed : ℚ) : Option ℤ :=
  match sAngle with
  | some a => some (round ((6 / 10 : ℚ) * (a : ℚ) + (1 / 4) * sBone + (3 / 20) * sEmbed))
  | none =>
    if sBone ≠ 0 ∨ sEmbed ≠ 0 then
      some (round ((13 / 20 : ℚ) * sBone + (7 / 20) * sEmbed))
    else none

/-- The coverage penalty of `pose.onResults`:
`covFactor = clamp((clamp(coverage, 0, 1) - 0.75) / 0.25, 0, 1)` and
`finalScore = round(finalScore * covFactor)`. -/
def coveragePenalty (fs : Option ℤ) (coverage : ℚ) : Option ℤ :=
  fs.map (fun f =>
    let cov := max 0 (min 1 coverage)
    let covFactor := max 0 (min 1 ((cov - 3 / 4) / (1 / 4)))
    round ((f : ℚ) * covFactor))

/-- The per-frame final score of `pose.onResults` for a template without
reference landmarks the caller passes `sBone = sEmbed = 0`, since
`tplShapeRef` is only populated when `template.landmarks` is present. -/
noncomputable def perFrameScore (tpl : Template ℚ) (ua : List (String × ℚ))
    (vis : List ℚ) (sBone sEmbed : ℚ) : Option ℤ :=
  coveragePenalty (blendScore (angleScore tpl ua vis) sBone sEmbed)
    ((scoreAgainstTemplate tpl ua vis).coverage)

/-- `aggregateScore(frames)`: `null` on an empty buffer; otherwise sort
ascending, drop the first `Math.floor(length * 0.7)` values (`slice(start)` =
keep the top 30 % by value), and return the element at index
`Math.floor((top.length - 1) / 2)` of the top slice, falling back to
`Math.round(vals[Math.floor(vals.length / 2)])` when the slice is empty.
(Indexing in the source is always in range; `getD`'s default is never used.) -/
def aggregateScore (frames : List ℚ) : Option ℤ :=
  match frames with
  | [] => none
  | f0 :: frest =>
    let vals := List.insertionSort (· ≤ ·) (f0 :: frest)
    let start := (⌊(vals.length : ℚ) * (7 / 10)⌋).toNat
    let top := vals.drop start
    match top with
    | [] => some (round (vals.getD (vals.length / 2) 0))
    | t0 :: trest => some (round ((t0 :: trest).getD (((t0 :: trest).length - 1) / 2) 0))

/-- The state of `useAngleSmoother`: one buffer per joint name
(a missing map entry reads as `[]`, matching `buffers.current.get(k) || []`). -/
def Smoother (α : Type) : Type := String → List α

/-- `push(k, v)`: append `v`, drop the oldest sample if over capacity `N`,
store the buffer back, and return the element at index
`Math.floor((s.length - 1) / 2)` of the sorted buffer (the lower-middle
median; the buffer is nonempty so the index is always in range). -/
def smootherPush (N : ℕ) (S : Smoother α) (k : String) (v : α) :
    Smoother α × α :=
  let buf := S k ++ [v]
  let buf2 := if N < buf.length then buf.tail else buf
  let S2 : Smoother α := fun k2 => if k2 = k then buf2 else S k2
  let s := List.insertionSort (· ≤ ·) buf2
  (S2, s.getD ((s.length - 1) / 2) 0)

/-- `reset()`: clears every buffer. -/
def smootherReset : Smoother α := fun _ => []

/-- Push a whole angle record through the smoother in order
(the `angles[k] = smoothAngle(k, rawAngles[k])` loop with capacity 7). -/
def smoothAll (S : Smoother α) (raw : List (String × α)) :
    Smoother α × List (String × α) :=
  match raw with
  | [] => (S, [])
  | (k, v) :: rest =>
    let p := smootherPush 7 S k v
    let q := smoothAll p.1 rest
    (q.1, (k, p.2) :: q.2)

/-- The three stroke colours of `drawSkeletonColored.pickColor`. -/
inductive SegColor
  | good
  | caution
  | poor
deriving DecidableEq

/-- `pickColor(keyGuess)`: `n = jointErr[keyGuess] ?? 0`; green for `n <= 1`,
yellow for `n <= 2`, red otherwise. -/
def pickColor (jointErr : List (String × ℚ)) (k : String) : SegColor :=
  let n := (getv jointErr k).getD 0
  if n ≤ 1 then SegColor.good
  else if n ≤ 2 then SegColor.caution
  else SegColor.poor

/-- `segToKey(a, b)`: map a skeleton segment to the joint key used for
colouring (13/14 = elbows, 25/26 = knees, 11/12 = shoulders). -/
def segToKey (a b : ℕ) : String :=
  if a = 13 ∨ b = 13 then "left_elbow"
  else if a = 14 ∨ b = 14 then "right_elbow"
  else if a = 25 ∨ b = 25 then "left_knee"
  else if a = 26 ∨ b = 26 then "right_knee"
  else if a = 11 ∨ b = 11 then "left_shoulder"
  else if a = 12 ∨ b = 12 then "right_shoulder"
  else "spine_tilt"

/-- A detected 2-D landmark (the `z`/`visibility` fields of the source's `Pt`
are consumed elsewhere and not needed by the normalizer). -/
structure Pt where
  x : ℝ
  y : ℝ

/-- `lm[i]` on the landmark array; `none` models an `undefined` entry. -/
def lmAt (lm : List (Option Pt)) (i : ℕ) : Option Pt :=
  lm.getD i none

/-- `Math.atan2(y, x)`. -/
noncomputable def atan2 (y x : ℝ) : ℝ :=
  if 0 < x then Real.arctan (y / x)
  else if x < 0 then
    (if 0 ≤ y then Real.arctan (y / x) + Real.pi
     else Real.arctan (y / x) - Real.pi)
  else if 0 < y then Real.pi / 2
  else if y < 0 then -(Real.pi / 2)
  else 0

/-- `Math.hypot(p.x, p.y)` (the source's `len`). -/
noncomputable def ptLen (p : Pt) : ℝ :=
  Real.sqrt (p.x ^ 2 + p.y ^ 2)

/-- The source's `sub`. -/
def ptSub (a b : Pt) : Pt :=
  ⟨a.x - b.x, a.y - b.y⟩

/-- `angleBetween2D(a, b, c)`: angle at `b` in degrees, with the `1e-6`
denominator guard and the `[-1, 1]` clamp before `acos`. -/
noncomputable def angleBetween2D (a b c : Pt) : ℝ :=
  let BA := ptSub a b
  let BC := ptSub c b
  let d := (BA.x * BC.x + BA.y * BC.y) / (ptLen BA * ptLen BC + 1 / 1000000)
  let clamped := max (-1) (min 1 d)
  Real.arccos clamped * (180 / Real.pi)

/-- Result of `normalizeXY`: the normalized points keyed by landmark index
(only indices 0–32 that were present), plus the synthetic `"mid_hip"` entry,
which is always `{x: 0, y: 0}`. -/
structure NormOut where
  pts : ℕ → Option Pt
  midHip : Pt

/-- `normalizeXY(lm)`: `null` when any of LEFT_HIP (23), RIGHT_HIP (24),
LEFT_SHOULDER (11), RIGHT_SHOULDER (12) is absent; otherwise translate by the
hip midpoint, scale by the shoulder→hip distance (+1e-6), and rotate the
shoulder line horizontal. -/
noncomputable def normalizeXY (lm : List (Option Pt)) : Option NormOut :=
  match lmAt lm 23, lmAt lm 24, lmAt lm 11, lmAt lm 12 with
  | some lhip, some rhip, some lsh, some rsh =>
    let midHip : Pt := ⟨(lhip.x + rhip.x) / 2, (lhip.y + rhip.y) / 2⟩
    let scale := ptLen ⟨lsh.x - lhip.x, lsh.y - lhip.y⟩ + 1 / 1000000
    let theta := atan2 (rsh.y - lsh.y) (rsh.x - lsh.x)
    let c := Real.cos (-theta)
    let s := Real.sin (-theta)
    let applyPt : Pt → Pt := fun p =>
      let tx := (p.x - midHip.x) / scale
      let ty := (p.y - midHip.y) / scale
      ⟨c * tx - s * ty, s * tx + c * ty⟩
    some ⟨fun i => if i < 33 then (lmAt lm i).map applyPt else none, ⟨0, 0⟩⟩
  | _, _, _, _ => none

/-- `extractAngles(norm)`: the eight joint angles plus `spine_tilt`.  A JS
access to a landmark the normalized map is missing would throw a `TypeError`;
that failure is modelled as `none`. -/
noncomputable def extractAngles (nrm : NormOut) : Option (List (String × ℝ)) :=
  match nrm.pts 11, nrm.pts 12, nrm.pts 13, nrm.pts 14, nrm.pts 15, nrm.pts 16,
    nrm.pts 23, nrm.pts 24, nrm.pts 25, nrm.pts 26, nrm.pts 27, nrm.pts 28 with
  | some lsh, some rsh, some lel, some rel, some lwr, some rwr,
    some lhip, some rhip, some lkn, some rkn, some lank, some rank =>
    let shMid : Pt := ⟨(lsh.x + rsh.x) / 2, (lsh.y + rsh.y) / 2⟩
    let hipMid := nrm.midHip
    let v : Pt := ⟨shMid.x - hipMid.x, shMid.y - hipMid.y⟩
    let spine := jsMod (atan2 v.y v.x * (180 / Real.pi) + 360) 180
    some [("left_elbow", angleBetween2D lsh lel lwr),
      ("right_elbow", angleBetween2D rsh rel rwr),
      ("left_knee", angleBetween2D lhip lkn lank),
      ("right_knee", angleBetween2D rhip rkn rank),
      ("left_shoulder", angleBetween2D lel lsh lhip),
      ("right_shoulder", angleBetween2D rel rsh rhip),
      ("left_hip", angleBetween2D lsh lhip lkn),
      ("right_hip", angleBetween2D rsh rhip rkn),
      ("spine_tilt", |spine - 90|)]
  | _, _, _, _, _, _, _, _, _, _, _, _ => none

/-- The per-frame products of `pose.onResults` that depend on normalization:
the smoothed angle set, the angle score, and the per-joint errors that drive
the coloured skeleton. -/
structure FrameOut where
  angles : List (String × ℝ)
  score : Option ℤ
  jointErr : List (String × ℝ)

/-- The normalization-dependent tail of `pose.onResults`:
`normalizeXY` → `extractAngles` → smoothing → `scoreAgainstTemplate`.
A `none` from the normalizer short-circuits every later stage. -/
noncomputable def frameOutputs (tpl : Template ℝ) (lm : List (Option Pt))
    (vis : List ℝ) (S : Smoother ℝ) : Option FrameOut :=
  match normalizeXY lm with
  | none => none
  | some nrm =>
    match extractAngles nrm with
    | none => none
    | some raw =>
      let angles := (smoothAll S raw).2
      let out := scoreAgainstTemplate tpl angles vis
      some ⟨angles, out.sRaw.map scoreValR, out.jointErr⟩

/-- Full visibility for all 33 landmarks. -/
def visFull : List ℚ := List.replicate 33 1

/-- The two-joint template of the end-to-end scenario. -/
def tplC2 : Template ℚ :=
  ⟨some [("left_elbow", 90), ("left_knee", 170)],
   some [("left_elbow", 15), ("left_knee", 20)],
   some [("left_elbow", 1), ("left_knee", 1)]⟩

/-- Smoothed user angles exactly matching `tplC2`. -/
def uaC2 : List (String × ℚ) := [("left_elbow", 90), ("left_knee", 170)]

/-- A single-joint template (only `left_elbow`). -/
def tplC1 : Template ℚ :=
  ⟨some [("left_elbow", 90)], some [("left_elbow", 15)],
   some [("left_elbow", 1)]⟩

/-- User angles exactly matching `tplC1`'s single joint. -/
def uaC1 : List (String × ℚ) := [("left_elbow", 90)]

/-- The frame-score buffer of the aggregation scenario. -/
def framesC3 : List ℚ := [40, 40, 40, 90, 90, 95]

/-- A template with every field absent (used as a dummy for pipeline facts that
do not depend on the template). -/
def tplEmpty : Template ℝ := ⟨none, none, none⟩

/-- User angles for the trim-worst scenario: elbow off by 30°, knee exact. -/
def uaC4 : List (String × ℚ) := [("left_elbow", 120), ("left_knee", 170)]

lemma getv_nil {β : Type} (k : String) : getv ([] : List (String × β)) k = none :=
  rfl

lemma getv_cons {β : Type} (k2 : String) (v2 : β) (rest : List (String × β))
    (k : String) :
    getv ((k2, v2) :: rest) k = if k2 = k then some v2 else getv rest k :=
  rfl

lemma getv_mem {β : Type} {m : List (String × β)} {k : String} {v : β}
    (h : getv m k = some v) : (k, v) ∈ m := by
  induction m with
  | nil => simp [getv] at h
  | cons p rest ih =>
    obtain ⟨k2, v2⟩ := p
    rw [getv_cons] at h
    by_cases hk : k2 = k
    · rw [if_pos hk] at h
      subst hk
      obtain rfl : v2 = v := by simpa using h
      exact List.mem_cons_self _ _
    · rw [if_neg hk] at h
      exact List.mem_cons_of_mem _ (ih h)

lemma jsMod_nonneg {x y : α} (hy : 0 < y) : 0 ≤ jsMod x y := by
  have h := Int.sub_floor_div_mul_nonneg x hy
  simpa [jsMod, mul_comm] using h

lemma jsMod_lt {x y : α} (hy : 0 < y) : jsMod x y < y := by
  have h := Int.sub_floor_div_mul_lt x hy
  simpa [jsMod, mul_comm] using h

lemma wrapDiff_nonneg (a b : α) : 0 ≤ wrapDiff a b := by
  have h1 : 0 ≤ jsMod |a - b| 360 := jsMod_nonneg (by norm_num)
  have h2 : jsMod |a - b| 360 < 360 := jsMod_lt (by norm_num)
  simp only [wrapDiff]
  split_ifs with h
  · linarith
  · linarith

lemma wrapDiff_le_180 (a b : α) : wrapDiff a b ≤ 180 := by
  have h1 : 0 ≤ jsMod |a - b| 360 := jsMod_nonneg (by norm_num)
  have h2 : jsMod |a - b| 360 < 360 := jsMod_lt (by norm_num)
  simp only [wrapDiff]
  split_ifs with h
  · linarith
  · linarith

lemma wrapDiff_comm (a b : α) : wrapDiff a b = wrapDiff b a := by
  simp only [wrapDiff, abs_sub_comm]

lemma wrapDiff_self (a : α) : wrapDiff a a = 0 := by
  simp [wrapDiff, jsMod]

/-- Every row built by the gating loop carries exactly the source's per-joint
quantities: `diff = wrapDiff(user, ref)`, `tol = max(1e-6, tol[k] ?? 12)`,
`weight = weights[k] ?? 1`, `normErr = min(diff / tol, 1)`. -/
lemma mem_mkRows {ref tolM wM ua : List (String × α)} {vis : List α}
    {r : Row α} (h : r ∈ mkRows ref tolM wM ua vis) :
    (∃ u rv, getv ua r.joint = some u ∧ (r.joint, rv) ∈ ref ∧
      survives r.joint vis = true ∧ r.diff = wrapDiff u rv)
    ∧ r.tol = max (1 / 1000000) ((getv tolM r.joint).getD 12)
    ∧ r.w = (getv wM r.joint).getD 1
    ∧ r.n = min (r.diff / r.tol) 1 := by
  induction ref with
  | nil => simp [mkRows] at h
  | cons p rest ih =>
    obtain ⟨k, rv⟩ := p
    rcases hu : getv ua k with _ | u
    · rw [mkRows] at h
      simp only [hu] at h
      obtain ⟨⟨u2, rv2, h1, h2, h3, h4⟩, h5, h6, h7⟩ := ih h
      exact ⟨⟨u2, rv2, h1, List.mem_cons_of_mem _ h2, h3, h4⟩, h5, h6, h7⟩
    · by_cases hs : survives k vis
      · rw [mkRows] at h
        simp only [hu, hs, if_true, List.mem_cons] at h
        rcases h with rfl | h
        · refine ⟨⟨u, rv, hu, List.mem_cons_self _ _, hs, rfl⟩, rfl, rfl, rfl⟩
        · obtain ⟨⟨u2, rv2, h1, h2, h3, h4⟩, h5, h6, h7⟩ := ih h
          exact ⟨⟨u2, rv2, h1, List.mem_cons_of_mem _ h2, h3, h4⟩, h5, h6, h7⟩
      · rw [mkRows] at h
        simp only [hu, hs, if_false] at h
        obtain ⟨⟨u2, rv2, h1, h2, h3, h4⟩, h5, h6, h7⟩ := ih h
        exact ⟨⟨u2, rv2, h1, List.mem_cons_of_mem _ h2, h3, h4⟩, h5, h6, h7⟩

lemma row_tol_pos {ref tolM wM ua : List (String × α)} {vis : List α}
    {r : Row α} (h : r ∈ mkRows ref tolM wM ua vis) : 0 < r.tol := by
  obtain ⟨_, htol, _, _⟩ := mem_mkRows h
  rw [htol]
  exact lt_of_lt_of_le (by norm_num) (le_max_left _ _)

lemma row_n_bounds {ref tolM wM ua : List (String × α)} {vis : List α}
    {r : Row α} (h : r ∈ mkRows ref tolM wM ua vis) : 0 ≤ r.n ∧ r.n ≤ 1 := by
  obtain ⟨⟨u, rv, _, _, _, hdiff⟩, htol, _, hn⟩ := mem_mkRows h
  have hd : 0 ≤ r.diff := by rw [hdiff]; exact wrapDiff_nonneg u rv
  have ht : 0 < r.tol := row_tol_pos h
  constructor
  · rw [hn]
    exact le_min (div_nonneg hd ht.le) zero_le_one
  · rw [hn]
    exact min_le_right _ _

lemma row_w_pos {ref tolM wM ua : List (String × α)} {vis : List α}
    {r : Row α} (hpos : ∀ p ∈ wM, 0 < p.2) (h : r ∈ mkRows ref tolM wM ua vis) :
    0 < r.w := by
  obtain ⟨_, _, hw, _⟩ := mem_mkRows h
  rw [hw]
  rcases hg : getv wM r.joint with _ | v
  · norm_num
  · simpa using hpos (r.joint, v) (getv_mem hg)

lemma sumW_nonneg {l : List (Row α)} (h : ∀ r ∈ l, 0 ≤ r.w) : 0 ≤ sumW l := by
  induction l with
  | nil => simp [sumW]
  | cons r rest ih =>
    rw [sumW]
    have h1 := h r (List.mem_cons_self _ _)
    have h2 := ih (fun r2 hr2 => h r2 (List.mem_cons_of_mem _ hr2))
    linarith

lemma sumNW_nonneg {l : List (Row α)} (h : ∀ r ∈ l, 0 ≤ r.n ∧ 0 ≤ r.w) :
    0 ≤ sumNW l := by
  induction l with
  | nil => simp [sumNW]
  | cons r rest ih =>
    rw [sumNW]
    have h1 := h r (List.mem_cons_self _ _)
    have h2 := ih (fun r2 hr2 => h r2 (List.mem_cons_of_mem _ hr2))
    nlinarith [h1.1, h1.2]

lemma sumNW_le_sumW {l : List (Row α)} (h : ∀ r ∈ l, r.n ≤ 1 ∧ 0 ≤ r.w) :
    sumNW l ≤ sumW l := by
  induction l with
  | nil => simp [sumNW, sumW]
  | cons r rest ih =>
    rw [sumNW, sumW]
    have h1 := h r (List.mem_cons_self _ _)
    have h2 := ih (fun r2 hr2 => h r2 (List.mem_cons_of_mem _ hr2))
    nlinarith [h1.1, h1.2]

lemma maeOf_bounds {l : List (Row α)} (hn : ∀ r ∈ l, 0 ≤ r.n ∧ r.n ≤ 1)
    (hw : ∀ r ∈ l, 0 < r.w) : 0 ≤ maeOf l ∧ maeOf l ≤ 1 := by
  rw [maeOf]
  split_ifs with h
  · norm_num
  · have hden : 0 ≤ sumW l := sumW_nonneg (fun r hr => (hw r hr).le)
    have hden2 : 0 < sumW l := lt_of_le_of_ne hden (Ne.symm h)
    constructor
    · exact div_nonneg (sumNW_nonneg (fun r hr => ⟨(hn r hr).1, (hw r hr).le⟩)) hden
    · exact (div_le_one hden2).2 (sumNW_le_sumW (fun r hr => ⟨(hn r hr).2, (hw r hr).le⟩))

lemma sortRowsDesc_perm (l : List (Row α)) : (sortRowsDesc l).Perm l :=
  List.perm_insertionSort _ _

lemma sortRowsDesc_sorted (l : List (Row α)) :
    List.Sorted (rDesc (α := α)) (sortRowsDesc l) :=
  List.sorted_insertionSort _ _

/-- The main branch of the scorer, given the built rows. -/
lemma scoreAgainstTemplate_cons {T : Template α} {ua : List (String × α)}
    {vis : List α} {ref : List (String × α)} {r0 : Row α} {rest : List (Row α)}
    (ha : T.angles_deg = some ref)
    (h : mkRows ref (T.tolerance_deg.getD []) (T.weights.getD []) ua vis
      = r0 :: rest) :
    scoreAgainstTemplate T ua vis =
      ⟨some (max 0 (1 - maeOf (sortRowsDesc (r0 :: rest)).tail)),
       sortRowsDesc (r0 :: rest),
       (sortRowsDesc (r0 :: rest)).map (fun r => (r.joint, r.n)),
       if ref.length = 0 then 0 else ((r0 :: rest).length : α) / (ref.length : α),
       ref.length, (r0 :: rest).length⟩ := by
  simp [scoreAgainstTemplate, ha, h]

/-- `scoreAgainstTemplate_cons` specialised to a literal template record. -/
lemma scoreAgainstTemplate_cons3 (ref tolM wM ua : List (String × α))
    (vis : List α) {r0 : Row α} {rest : List (Row α)}
    (h : mkRows ref tolM wM ua vis = r0 :: rest) :
    scoreAgainstTemplate ⟨some ref, some tolM, some wM⟩ ua vis =
      ⟨some (max 0 (1 - maeOf (sortRowsDesc (r0 :: rest)).tail)),
       sortRowsDesc (r0 :: rest),
       (sortRowsDesc (r0 :: rest)).map (fun r => (r.joint, r.n)),
       if ref.length = 0 then 0 else ((r0 :: rest).length : α) / (ref.length : α),
       ref.length, (r0 :: rest).length⟩ :=
  scoreAgainstTemplate_cons rfl (by simpa using h)

lemma sRaw_bounds {T : Template α} {ua : List (String × α)} {vis : List α}
    (hpos : ∀ p ∈ T.weights.getD [], 0 < p.2) {x : α}
    (hx : (scoreAgainstTemplate T ua vis).sRaw = some x) : 0 ≤ x ∧ x ≤ 1 := by
  rcases ha : T.angles_deg with _ | ref
  · simp [scoreAgainstTemplate, ha] at hx
  · rcases hrows : mkRows ref (T.tolerance_deg.getD []) (T.weights.getD []) ua vis
      with _ | ⟨r0, rest⟩
    · simp [scoreAgainstTemplate, ha, hrows] at hx
    · rw [scoreAgainstTemplate_cons ha hrows] at hx
      obtain rfl : x = max 0 (1 - maeOf (sortRowsDesc (r0 :: rest)).tail) := by
        simpa using hx.symm
      have hsub : ∀ r ∈ (sortRowsDesc (r0 :: rest)).tail,
          r ∈ mkRows ref (T.tolerance_deg.getD []) (T.weights.getD []) ua vis := by
        intro r hr
        have h1 : r ∈ sortRowsDesc (r0 :: rest) := List.mem_of_mem_tail hr
        have h2 : r ∈ r0 :: rest := (sortRowsDesc_perm _).mem_iff.mp h1
        rw [← hrows] at h2
        exact h2
      have hmae := maeOf_bounds (fun r hr => row_n_bounds (hsub r hr))
        (fun r hr => row_w_pos hpos (hsub r hr))
      refine ⟨le_max_left _ _, max_le (by norm_num) (by linarith [hmae.1])⟩

lemma scoreValR_bounds {s : ℝ} (h0 : 0 ≤ s) (h1 : s ≤ 1) :
    0 ≤ scoreValR s ∧ scoreValR s ≤ 100 := by
  have hp0 : 0 ≤ s ^ (0.6 : ℝ) := Real.rpow_nonneg h0 _
  have hp1 : s ^ (0.6 : ℝ) ≤ 1 := Real.rpow_le_one h0 h1 (by norm_num)
  constructor
  · rw [scoreValR, round_eq]
    calc (0 : ℤ) = ⌊(1 / 2 : ℝ)⌋ := by norm_num
      _ ≤ ⌊100 * s ^ (0.6 : ℝ) + 1 / 2⌋ := Int.floor_mono (by nlinarith)
  · rw [scoreValR, round_eq]
    calc ⌊100 * s ^ (0.6 : ℝ) + 1 / 2⌋ ≤ ⌊(100 : ℝ) + 1 / 2⌋ :=
        Int.floor_mono (by nlinarith)
      _ = 100 := by norm_num [Int.floor_eq_iff]

lemma angleScore_bounds {T : Template ℚ} {ua : List (String × ℚ)}
    {vis : List ℚ} (hpos : ∀ p ∈ T.weights.getD [], 0 < p.2) {s : ℤ}
    (hs : angleScore T ua vis = some s) : 0 ≤ s ∧ s ≤ 100 := by
  rw [angleScore] at hs
  rcases hx : (scoreAgainstTemplate T ua vis).sRaw with _ | x
  · rw [hx] at hs
    simp at hs
  · rw [hx] at hs
    obtain rfl : s = scoreValR (x : ℝ) := by simpa using hs.symm
    obtain ⟨h0, h1⟩ := sRaw_bounds hpos hx
    exact scoreValR_bounds (by exact_mod_cast h0) (by exact_mod_cast h1)

/-- C6: the angle-difference wrap `wrapDiff` is symmetric, zero on equal
arguments, and its output always lies in [0, 180] (stated over the reals). -/
theorem wrapDiff_symm_zero_range (a b x : ℝ) :
    wrapDiff a b = wrapDiff b a ∧ wrapDiff x x = 0 ∧
    0 ≤ wrapDiff a b ∧ wrapDiff a b ≤ 180 :=
  ⟨wrapDiff_comm a b, wrapDiff_self x, wrapDiff_nonneg a b, wrapDiff_le_180 a b⟩

/-- C5: each surviving joint scores `normError = min(wrap(|user − ref|) /
max(1e-6, tolerance_deg[joint] ?? 12), 1)` with `weight = weights[joint] ?? 1`;
the aggregate is `mae = Σ(normError·weight)/Σ(weight)` over the trimmed set
(the sorted rows with the worst dropped), the emitted score is
`round(100·(1−mae)^0.6)` via `sRaw`, and with positive (or default) weights
that score always lies in [0, 100]. -/
theorem normError_mae_score_formula (ref tolM wM ua : List (String × ℚ))
    (vis : List ℚ) (hpos : ∀ p ∈ wM, 0 < p.2) :
    (∀ r ∈ mkRows ref tolM wM ua vis,
      r.n = min (r.diff / r.tol) 1 ∧
      r.tol = max (1 / 1000000) ((getv tolM r.joint).getD 12) ∧
      r.w = (getv wM r.joint).getD 1 ∧ 0 ≤ r.n ∧ r.n ≤ 1)
    ∧ (∀ r0 rest, mkRows ref tolM wM ua vis = r0 :: rest →
      (scoreAgainstTemplate ⟨some ref, some tolM, some wM⟩ ua vis).sRaw
        = some (max 0 (1 - maeOf (sortRowsDesc (r0 :: rest)).tail)))
    ∧ (∀ s, angleScore ⟨some ref, some tolM, some wM⟩ ua vis = some s →
      0 ≤ s ∧ s ≤ 100) := by
  refine ⟨?_, ?_, ?_⟩
  · intro r hr
    obtain ⟨_, htol, hw, hn⟩ := mem_mkRows hr
    exact ⟨hn, htol, hw, (row_n_bounds hr).1, (row_n_bounds hr).2⟩
  · intro r0 rest h
    rw [scoreAgainstTemplate_cons rfl (by simpa using h)]
  · intro s hs
    exact angleScore_bounds (by simpa using hpos) hs

/-- Witness for C5 at the concrete two-joint template. -/
theorem normError_mae_score_formula_witness :
    (∀ p ∈ [("left_elbow", (1 : ℚ)), ("left_knee", 1)], 0 < p.2) ∧
    (∀ s, angleScore tplC2 uaC2 visFull = some s → 0 ≤ s ∧ s ≤ 100) := by
  have hpos : ∀ p ∈ [("left_elbow", (1 : ℚ)), ("left_knee", 1)], 0 < p.2 := by
    intro p hp
    rcases List.mem_cons.mp hp with rfl | hp2
    · norm_num
    · rcases List.mem_cons.mp hp2 with rfl | hp3
      · norm_num
      · simp at hp3
  exact ⟨hpos,
    (normError_mae_score_formula [("left_elbow", 90), ("left_knee", 170)]
      [("left_elbow", 15), ("left_knee", 20)] [("left_elbow", 1), ("left_knee", 1)]
      uaC2 visFull hpos).2.2⟩

/-- C10: every per-joint normalized error emitted by the scorer lies in
[0, 1], so `pickColor` classifies every key — in particular every skeleton
segment via `segToKey` — as "good"; the caution/poor branches are unreachable
on scorer output. -/
theorem jointErr_unit_interval_all_good (T : Template ℚ)
    (ua : List (String × ℚ)) (vis : List ℚ) :
    (∀ p ∈ (scoreAgainstTemplate T ua vis).jointErr, 0 ≤ p.2 ∧ p.2 ≤ 1)
    ∧ (∀ k, pickColor (scoreAgainstTemplate T ua vis).jointErr k = SegColor.good)
    ∧ (∀ a b, pickColor (scoreAgainstTemplate T ua vis).jointErr (segToKey a b)
        = SegColor.good) := by
  have hje : ∀ p ∈ (scoreAgainstTemplate T ua vis).jointErr, 0 ≤ p.2 ∧ p.2 ≤ 1 := by
    rcases ha : T.angles_deg with _ | ref
    · simp [scoreAgainstTemplate, ha]
    · rcases hrows : mkRows ref (T.tolerance_deg.getD []) (T.weights.getD []) ua vis
        with _ | ⟨r0, rest⟩
      · simp [scoreAgainstTemplate, ha, hrows]
      · rw [scoreAgainstTemplate_cons ha hrows]
        intro p hp
        simp only [List.mem_map] at hp
        obtain ⟨r, hr, rfl⟩ := hp
        have h2 : r ∈ r0 :: rest := (sortRowsDesc_perm _).mem_iff.mp hr
        rw [← hrows] at h2
        exact row_n_bounds h2
  have hcol : ∀ k,
      pickColor (scoreAgainstTemplate T ua vis).jointErr k = SegColor.good := by
    intro k
    rcases hg : getv (scoreAgainstTemplate T ua vis).jointErr k with _ | n
    · simp [pickColor, hg]
    · have hn := (hje (k, n) (getv_mem hg)).2
      simp only [pickColor, hg, Option.getD_some]
      rw [if_pos hn]
  exact ⟨hje, hcol, fun a b => hcol _⟩

lemma scoreValR_one : scoreValR 1 = 100 := by
  simp [scoreValR, Real.one_rpow]

lemma scoreValR_zero : scoreValR 0 = 0 := by
  rw [scoreValR, Real.zero_rpow (by norm_num)]
  simp

lemma rowsC2_eval :
    mkRows [("left_elbow", (90 : ℚ)), ("left_knee", 170)]
      [("left_elbow", 15), ("left_knee", 20)]
      [("left_elbow", 1), ("left_knee", 1)] uaC2 visFull
    = [⟨"left_elbow", 0, 0, 15, 1⟩, ⟨"left_knee", 0, 0, 20, 1⟩] := by
  simp [mkRows, getv, survives, JOINT_LM, visOK, visAt, visFull, uaC2,
    wrapDiff, jsMod]
  norm_num

lemma sortC2_eval :
    sortRowsDesc [(⟨"left_elbow", 0, 0, 15, 1⟩ : Row ℚ), ⟨"left_knee", 0, 0, 20, 1⟩]
    = [⟨"left_elbow", 0, 0, 15, 1⟩, ⟨"left_knee", 0, 0, 20, 1⟩] :=
  List.Sorted.insertionSort_eq (by simp [List.sorted_cons, rDesc])

lemma scoreC2_eval : scoreAgainstTemplate tplC2 uaC2 visFull =
    ⟨some 1, [⟨"left_elbow", 0, 0, 15, 1⟩, ⟨"left_knee", 0, 0, 20, 1⟩],
     [("left_elbow", 0), ("left_knee", 0)], 1, 2, 2⟩ := by
  simp [scoreAgainstTemplate, tplC2, rowsC2_eval, sortC2_eval, maeOf, sumNW, sumW]

lemma angleScoreC2_eval : angleScore tplC2 uaC2 visFull = some 100 := by
  simp [angleScore, scoreC2_eval, scoreValR_one]

lemma perFrameC2_eval : perFrameScore tplC2 uaC2 visFull 0 0 = some 60 := by
  rw [perFrameScore, angleScoreC2_eval, scoreC2_eval]
  simp [blendScore, coveragePenalty]
  norm_num [round_eq, Int.floor_eq_iff]

lemma rowsC1_eval :
    mkRows [("left_elbow", (90 : ℚ))] [("left_elbow", 15)] [("left_elbow", 1)]
      uaC1 visFull = [⟨"left_elbow", 0, 0, 15, 1⟩] := by
  simp [mkRows, getv, survives, JOINT_LM, visOK, visAt, visFull, uaC1,
    wrapDiff, jsMod]
  norm_num

lemma scoreC1_eval : scoreAgainstTemplate tplC1 uaC1 visFull =
    ⟨some 0, [⟨"left_elbow", 0, 0, 15, 1⟩], [("left_elbow", 0)], 1, 1, 1⟩ := by
  have hsort : sortRowsDesc [(⟨"left_elbow", 0, 0, 15, 1⟩ : Row ℚ)]
      = [⟨"left_elbow", 0, 0, 15, 1⟩] :=
    List.Sorted.insertionSort_eq (by simp [List.sorted_cons])
  simp [scoreAgainstTemplate, tplC1, rowsC1_eval, hsort, maeOf, sumNW, sumW]

lemma angleScoreC1_eval : angleScore tplC1 uaC1 visFull = some 0 := by
  simp [angleScore, scoreC1_eval, scoreValR_zero]

lemma aggC3_eval : aggregateScore framesC3 = some 90 := by
  have hsort : List.insertionSort (· ≤ ·) framesC3 = framesC3 :=
    List.Sorted.insertionSort_eq (by norm_num [framesC3, List.sorted_cons])
  simp [aggregateScore, framesC3] at hsort ⊢
  rw [show ((⌊(6 : ℚ) * (7 / 10)⌋).toNat) = 4 by
    rw [show ⌊(6 : ℚ) * (7 / 10)⌋ = 4 by norm_num [Int.floor_eq_iff]]
    rfl]
  simp

/-- C1 counterexample: for the single-joint template matched exactly under
full visibility, the one surviving row has normError 0, yet the emitted score
is 0 — not the score computed directly from that joint's error, which the
lift would send to 100. -/
theorem single_joint_trim_counterexample :
    (scoreAgainstTemplate tplC1 uaC1 visFull).rows = [⟨"left_elbow", 0, 0, 15, 1⟩]
    ∧ angleScore tplC1 uaC1 visFull = some 0
    ∧ scoreValR ((max 0 (1 - (0 : ℚ)) : ℚ) : ℝ) = 100
    ∧ (0 : ℤ) ≠ 100 := by
  refine ⟨by rw [scoreC1_eval], angleScoreC1_eval, ?_, by decide⟩
  rw [show (max 0 (1 - (0 : ℚ)) : ℚ) = 1 by norm_num, Rat.cast_one]
  exact scoreValR_one

/-- C1 (amended): with zero surviving joints the score is null; with exactly
one surviving joint the trim `slice(1)` removes that joint too, the weight
denominator becomes 0, `mae` falls back to 1, and the score is 0 regardless
of the joint's normalized error — trimming is not skipped. -/
theorem single_surviving_joint_scores_zero (T : Template ℚ)
    (ua : List (String × ℚ)) (vis : List ℚ) :
    ((scoreAgainstTemplate T ua vis).rows = [] →
      (scoreAgainstTemplate T ua vis).sRaw = none)
    ∧ (∀ r : Row ℚ, (scoreAgainstTemplate T ua vis).rows = [r] →
      angleScore T ua vis = some 0) := by
  constructor
  · intro h
    rcases ha : T.angles_deg with _ | ref
    · simp [scoreAgainstTemplate, ha]
    · rcases hrows : mkRows ref (T.tolerance_deg.getD []) (T.weights.getD []) ua vis
        with _ | ⟨r0, rest⟩
      · simp [scoreAgainstTemplate, ha, hrows]
      · exfalso
        simp only [scoreAgainstTemplate_cons ha hrows] at h
        have hp := sortRowsDesc_perm (r0 :: rest)
        rw [h] at hp
        have hlen := hp.length_eq
        simp at hlen
  · intro r h
    rcases ha : T.angles_deg with _ | ref
    · simp [scoreAgainstTemplate, ha] at h
    · rcases hrows : mkRows ref (T.tolerance_deg.getD []) (T.weights.getD []) ua vis
        with _ | ⟨r0, rest⟩
      · simp [scoreAgainstTemplate, ha, hrows] at h
      · simp only [scoreAgainstTemplate_cons ha hrows] at h
        rw [angleScore]
        simp only [scoreAgainstTemplate_cons ha hrows, h, List.tail_cons]
        rw [show maeOf ([] : List (Row ℚ)) = 1 by simp [maeOf, sumW]]
        rw [show max (0 : ℚ) (1 - 1) = 0 by norm_num]
        simp [scoreValR_zero]

/-- Witness for the amended C1 at the concrete single-joint template. -/
theorem single_surviving_joint_scores_zero_witness :
    angleScore tplC1 uaC1 visFull = some 0 :=
  (single_surviving_joint_scores_zero tplC1 uaC1 visFull).2
    ⟨"left_elbow", 0, 0, 15, 1⟩ (by rw [scoreC1_eval])

/-- C2 counterexample: the end-to-end per-frame score for the perfect-match
two-joint scenario is 60, not 100: the blend multiplies the angle score by
0.6 and the absent landmark-based scores contribute 0. -/
theorem perFrame_perfect_two_joint_not_100 :
    perFrameScore tplC2 uaC2 visFull 0 0 = some 60 ∧
    perFrameScore tplC2 uaC2 visFull 0 0 ≠ some 100 := by
  refine ⟨perFrameC2_eval, ?_⟩
  rw [perFrameC2_eval]
  simp

/-- C2 (amended): in the perfect-match scenario the angle score is 100, but
the blended, coverage-penalized per-frame output is 60 (= round(0.6·100)),
because a template without reference landmarks leaves `sBone = sEmbed = 0`
and the blend weights are not renormalized. -/
theorem perFrame_perfect_two_joint_is_60 :
    angleScore tplC2 uaC2 visFull = some 100 ∧
    perFrameScore tplC2 uaC2 visFull 0 0 = some 60 :=
  ⟨angleScoreC2_eval, perFrameC2_eval⟩

/-- C3 counterexample: on [40,40,40,90,90,95] the aggregation returns 90
(the lower-middle element of the top slice [90,95]), not 92 or 93. -/
theorem aggregateScore_example_not_92_93 :
    aggregateScore framesC3 = some 90 ∧
    aggregateScore framesC3 ≠ some 92 ∧
    aggregateScore framesC3 ≠ some 93 := by
  refine ⟨aggC3_eval, ?_, ?_⟩ <;> rw [aggC3_eval] <;> simp

/-- C3 (amended): on a nonempty buffer the sorted top-30% slice
(`slice(Math.floor(0.7·len))`) is never empty — the whole-buffer fallback is
unreachable — and the result is the lower-middle element of that slice (the
lower of the two middle values on even sizes); on [40,40,40,90,90,95] this
yields 90. -/
theorem aggregateScore_top_slice_lower_median :
    (∀ (f0 : ℚ) (frest : List ℚ), ∃ t0 trest,
      (List.insertionSort (· ≤ ·) (f0 :: frest)).drop
          ((⌊(((List.insertionSort (· ≤ ·) (f0 :: frest)).length : ℚ)) * (7 / 10)⌋).toNat)
        = t0 :: trest ∧
      aggregateScore (f0 :: frest)
        = some (round ((t0 :: trest).getD (((t0 :: trest).length - 1) / 2) 0)))
    ∧ aggregateScore framesC3 = some 90 := by
  constructor
  · intro f0 frest
    have hlen : (List.insertionSort (· ≤ ·) (f0 :: frest)).length
        = frest.length + 1 := by
      simpa using (List.perm_insertionSort (· ≤ ·) (f0 :: frest)).length_eq
    have hfl0 : (0 : ℤ) ≤ ⌊((frest.length + 1 : ℕ) : ℚ) * (7 / 10)⌋ := by
      apply Int.floor_nonneg.2
      positivity
    have hfl : ⌊((frest.length + 1 : ℕ) : ℚ) * (7 / 10)⌋ < ((frest.length + 1 : ℕ) : ℤ) := by
      apply Int.floor_lt.2
      push_cast
      nlinarith [Nat.cast_nonneg (α := ℚ) frest.length]
    have hstart : (⌊((frest.length + 1 : ℕ) : ℚ) * (7 / 10)⌋).toNat < frest.length + 1 := by
      omega
    rcases hd : (List.insertionSort (· ≤ ·) (f0 :: frest)).drop
        ((⌊(((List.insertionSort (· ≤ ·) (f0 :: frest)).length : ℚ)) * (7 / 10)⌋).toNat)
        with _ | ⟨t0, trest⟩
    · exfalso
      rw [hlen] at hd
      have hle := List.drop_eq_nil_iff.mp hd
      rw [hlen] at hle
      omega
    · exact ⟨t0, trest, rfl, by simp only [aggregateScore, hd]⟩
  · exact aggC3_eval

lemma rowsC4_eval :
    mkRows [("left_elbow", (90 : ℚ)), ("left_knee", 170)]
      [("left_elbow", 15), ("left_knee", 20)]
      [("left_elbow", 1), ("left_knee", 1)] uaC4 visFull
    = [⟨"left_elbow", 30, 1, 15, 1⟩, ⟨"left_knee", 0, 0, 20, 1⟩] := by
  simp [mkRows, getv, survives, JOINT_LM, visOK, visAt, visFull, uaC4,
    wrapDiff, jsMod]
  norm_num [Int.floor_eq_iff, abs_of_nonneg, min_eq_right]

/-- C4: with at least two surviving joints and a strictly-worst joint `w`,
the descending sort places `w` first, the `slice(1)` trim removes exactly
`w`, and the aggregated error (numerator and denominator alike) ranges over
the remaining rows only. -/
theorem trim_worst_drops_unique_max (ref tolM wM ua : List (String × ℚ))
    (vis : List ℚ) (w : Row ℚ)
    (h2 : 2 ≤ (mkRows ref tolM wM ua vis).length)
    (hw : w ∈ mkRows ref tolM wM ua vis)
    (hmax : ∀ r ∈ mkRows ref tolM wM ua vis, r ≠ w → r.n < w.n)
    (hcount : (mkRows ref tolM wM ua vis).count w = 1) :
    ∃ t, sortRowsDesc (mkRows ref tolM wM ua vis) = w :: t ∧ w ∉ t ∧ t ≠ [] ∧
      (∀ r ∈ t, r.n ≤ w.n) ∧
      (scoreAgainstTemplate ⟨some ref, some tolM, some wM⟩ ua vis).sRaw
        = some (max 0 (1 - (if sumW t = 0 then 1 else sumNW t / sumW t))) := by
  rcases hrows : mkRows ref tolM wM ua vis with _ | ⟨r0, rest⟩
  · rw [hrows] at h2
    simp at h2
  · rw [hrows] at hw hmax hcount h2
    have hperm := sortRowsDesc_perm (r0 :: rest)
    have hsorted := sortRowsDesc_sorted (r0 :: rest)
    rcases hs : sortRowsDesc (r0 :: rest) with _ | ⟨h0, t⟩
    · rw [hs] at hperm
      have hlen := hperm.length_eq
      simp at hlen
    · rw [hs] at hperm hsorted
      have hall : ∀ r ∈ t, rDesc h0 r := (List.sorted_cons.mp hsorted).1
      have hh0mem : h0 ∈ r0 :: rest := hperm.mem_iff.mp (List.mem_cons_self _ _)
      have hweq : h0 = w := by
        by_contra hne
        have h1 : h0.n < w.n := hmax h0 hh0mem hne
        have hwmem : w ∈ h0 :: t := hperm.mem_iff.mpr hw
        rcases List.mem_cons.mp hwmem with heq | hmem
        · exact hne heq.symm
        · have h3 : w.n ≤ h0.n := hall w hmem
          linarith
      rw [hweq] at hall hperm hs ⊢
      have hnott : w ∉ t := by
        have hc1 : (w :: t).count w = 1 := by
          rw [hperm.count_eq w]
          exact hcount
        rw [List.count_cons_self] at hc1
        exact List.count_eq_zero.mp (by omega)
      have htne : t ≠ [] := by
        intro hteq
        have hl := hperm.length_eq
        rw [hteq] at hl
        simp only [List.length_cons, List.length_nil] at hl h2
        omega
      have hall2 : ∀ r ∈ t, r.n ≤ w.n := fun r hr => hall r hr
      refine ⟨t, rfl, hnott, htne, hall2, ?_⟩
      simp only [scoreAgainstTemplate_cons3 ref tolM wM ua vis hrows, hs,
        List.tail_cons, maeOf]

/-- Witness for C4: the elbow is off by 30° (normError 1), the knee is exact
(normError 0); the elbow row is sorted first, trimmed, and the aggregation
runs over the knee row alone. -/
theorem trim_worst_drops_unique_max_witness :
    2 ≤ (mkRows [("left_elbow", (90 : ℚ)), ("left_knee", 170)]
      [("left_elbow", 15), ("left_knee", 20)]
      [("left_elbow", 1), ("left_knee", 1)] uaC4 visFull).length ∧
    ∃ t, sortRowsDesc (mkRows [("left_elbow", (90 : ℚ)), ("left_knee", 170)]
      [("left_elbow", 15), ("left_knee", 20)]
      [("left_elbow", 1), ("left_knee", 1)] uaC4 visFull)
        = ⟨"left_elbow", 30, 1, 15, 1⟩ :: t ∧
      (⟨"left_elbow", 30, 1, 15, 1⟩ : Row ℚ) ∉ t ∧ t ≠ [] ∧
      (∀ r ∈ t, r.n ≤ (⟨"left_elbow", 30, 1, 15, 1⟩ : Row ℚ).n) ∧
      (scoreAgainstTemplate
        ⟨some [("left_elbow", 90), ("left_knee", 170)],
         some [("left_elbow", 15), ("left_knee", 20)],
         some [("left_elbow", 1), ("left_knee", 1)]⟩ uaC4 visFull).sRaw
        = some (max 0 (1 - (if sumW t = 0 then 1 else sumNW t / sumW t))) := by
  constructor
  · rw [rowsC4_eval]
    simp
  · apply trim_worst_drops_unique_max
    · rw [rowsC4_eval]
      simp
    · rw [rowsC4_eval]
      simp
    · rw [rowsC4_eval]
      intro r hr hne
      rcases List.mem_cons.mp hr with rfl | hr2
      · exact absurd rfl hne
      · rcases List.mem_cons.mp hr2 with rfl | hr3
        · norm_num
        · simp at hr3
    · rw [rowsC4_eval]
      rw [List.count_cons_self, List.count_cons, List.count_nil]
      norm_num

/-- C7: pushing into the capacity-7 median smoother keeps every buffer at
≤ 7 samples, drops the oldest sample when the buffer was full, returns the
lower-middle element of the sorted current buffer (which is a member of the
buffer, also for buffers shorter than 7), and `reset` clears every buffer. -/
theorem smoother_push_props (S : Smoother ℚ) (k : String) (v : ℚ)
    (hcap : ∀ k2, (S k2).length ≤ 7) :
    (∀ k2, ((smootherPush 7 S k v).1 k2).length ≤ 7)
    ∧ ((S k).length = 7 → (smootherPush 7 S k v).1 k = (S k).tail ++ [v])
    ∧ (smootherPush 7 S k v).1 k ≠ []
    ∧ (smootherPush 7 S k v).2
        = (List.insertionSort (· ≤ ·) ((smootherPush 7 S k v).1 k)).getD
            ((((smootherPush 7 S k v).1 k).length - 1) / 2) 0
    ∧ (smootherPush 7 S k v).2 ∈ (smootherPush 7 S k v).1 k
    ∧ (∀ k2, (smootherReset : Smoother ℚ) k2 = []) := by
  have hfst : ∀ k2, (smootherPush 7 S k v).1 k2 =
      if k2 = k then
        (if 7 < (S k ++ [v]).length then (S k ++ [v]).tail else S k ++ [v])
      else S k2 := fun k2 => rfl
  have hk : (smootherPush 7 S k v).1 k =
      (if 7 < (S k ++ [v]).length then (S k ++ [v]).tail else S k ++ [v]) := by
    rw [hfst]
    simp
  set buf2 := if 7 < (S k ++ [v]).length then (S k ++ [v]).tail else S k ++ [v]
    with hbuf2
  have happ : (S k ++ [v]).length = (S k).length + 1 := by simp
  have hb1 : buf2.length ≤ 7 := by
    rw [hbuf2]
    split_ifs with h
    · rw [List.length_tail, happ]
      have := hcap k
      omega
    · rw [happ] at h ⊢
      omega
  have hb0 : 1 ≤ buf2.length := by
    rw [hbuf2]
    split_ifs with h
    · rw [List.length_tail, happ]
      rw [happ] at h
      omega
    · rw [happ]
      omega
  set s := List.insertionSort (· ≤ ·) buf2 with hsdef
  have hslen : s.length = buf2.length := by
    rw [hsdef]
    exact (List.perm_insertionSort (· ≤ ·) buf2).length_eq
  have hsnd : (smootherPush 7 S k v).2 = s.getD ((s.length - 1) / 2) 0 := rfl
  refine ⟨?_, ?_, ?_, ?_, ?_, fun k2 => rfl⟩
  · intro k2
    rw [hfst k2]
    split_ifs with hk2
    · exact hb1
    · exact hcap k2
  · intro hfull
    rw [hk, hbuf2]
    rw [if_pos (by rw [happ, hfull]; omega)]
    rcases hSk : S k with _ | ⟨a, rest⟩
    · rw [hSk] at hfull
      simp at hfull
    · simp
  · rw [hk]
    intro hnil
    rw [hnil] at hb0
    simp at hb0
  · rw [hsnd, hk, hslen]
  · have hidx : (s.length - 1) / 2 < s.length := by
      rw [hslen]
      omega
    have hgd : s.getD ((s.length - 1) / 2) 0 = s.get ⟨(s.length - 1) / 2, hidx⟩ := by
      rw [List.getD_eq_getElem?_getD, List.getElem?_eq_getElem hidx]
      rfl
    have hmem : s.get ⟨(s.length - 1) / 2, hidx⟩ ∈ s := List.get_mem s _ _
    rw [hsnd, hgd, hk]
    exact (List.perm_insertionSort (· ≤ ·) buf2).mem_iff.mp hmem

/-- Witness for C7: pushing 3 into a freshly reset smoother. -/
theorem smoother_push_props_witness :
    (∀ k2, ((smootherReset : Smoother ℚ) k2).length ≤ 7) ∧
    (smootherPush 7 (smootherReset : Smoother ℚ) "left_elbow" 3).2
      ∈ (smootherPush 7 (smootherReset : Smoother ℚ) "left_elbow" 3).1 "left_elbow" := by
  have hcap : ∀ k2, ((smootherReset : Smoother ℚ) k2).length ≤ 7 := by
    intro k2
    simp [smootherReset]
  exact ⟨hcap, (smoother_push_props smootherReset "left_elbow" 3 hcap).2.2.2.2.1⟩

/-- C8: `normalizeXY` yields no result exactly when one of the four anchor
landmarks (left/right hip 23/24, left/right shoulder 11/12) is absent, and in
that case the whole normalization-dependent frame pipeline — angle set,
score, per-joint errors for drawing — produces nothing (and, being total,
throws nothing). -/
theorem normalize_none_iff_anchor_missing (lm : List (Option Pt)) :
    (normalizeXY lm = none ↔
      (lmAt lm 23 = none ∨ lmAt lm 24 = none ∨ lmAt lm 11 = none ∨
        lmAt lm 12 = none))
    ∧ ((lmAt lm 23 = none ∨ lmAt lm 24 = none ∨ lmAt lm 11 = none ∨
        lmAt lm 12 = none) →
      ∀ (tpl : Template ℝ) (vis : List ℝ) (S : Smoother ℝ),
        frameOutputs tpl lm vis S = none) := by
  have hmain : normalizeXY lm = none ↔
      (lmAt lm 23 = none ∨ lmAt lm 24 = none ∨ lmAt lm 11 = none ∨
        lmAt lm 12 = none) := by
    rcases h23 : lmAt lm 23 with _ | p23 <;>
      rcases h24 : lmAt lm 24 with _ | p24 <;>
      rcases h11 : lmAt lm 11 with _ | p11 <;>
      rcases h12 : lmAt lm 12 with _ | p12 <;>
      simp [normalizeXY, h23, h24, h11, h12]
  refine ⟨hmain, fun h tpl vis S => ?_⟩
  simp only [frameOutputs, hmain.mpr h]

/-- Witness for C8: an empty landmark array (both hips absent). -/
theorem normalize_none_iff_anchor_missing_witness :
    (lmAt ([] : List (Option Pt)) 23 = none ∨
      lmAt ([] : List (Option Pt)) 24 = none ∨
      lmAt ([] : List (Option Pt)) 11 = none ∨
      lmAt ([] : List (Option Pt)) 12 = none) ∧
    frameOutputs tplEmpty [] [] smootherReset = none :=
  ⟨Or.inl rfl,
    (normalize_none_iff_anchor_missing []).2 (Or.inl rfl) tplEmpty [] smootherReset⟩

lemma visAt_set_self {vis : List α} {i : ℕ} (h : i < vis.length) (v : α) :
    visAt (vis.set i v) i = v := by
  simp [visAt, List.getD_eq_getElem?_getD, List.getElem?_set_self h]

lemma visAt_set_ne {vis : List α} {i j : ℕ} (h : i ≠ j) (v : α) :
    visAt (vis.set i v) j = visAt vis j := by
  simp [visAt, List.getD_eq_getElem?_getD, List.getElem?_set_ne h]

lemma survives_set_mono {k : String} {vis : List α} {i0 : ℕ} {v2 : α}
    (hlen : i0 < vis.length) (hv : v2 < 1 / 2)
    (h : survives k (vis.set i0 v2) = true) : survives k vis = true := by
  rcases hg : getv JOINT_LM k with _ | req
  · simp only [survives, hg]
  · simp only [survives, hg, visOK, List.all_eq_true, decide_eq_true_eq] at h ⊢
    intro i hi
    have hne : i0 ≠ i := by
      intro heq
      subst heq
      have h2 := h i0 hi
      rw [visAt_set_self hlen] at h2
      linarith
    have h2 := h i hi
    rw [visAt_set_ne hne] at h2
    exact h2

lemma visOK_set_of_notin {vis : List α} {i0 : ℕ} {v2 : α} {req : List ℕ}
    (hni : i0 ∉ req) :
    visOK req (vis.set i0 v2) (1 / 2) = visOK req vis (1 / 2) := by
  induction req with
  | nil => rfl
  | cons i rest ih =>
    have hne : i0 ≠ i := fun heq => hni (heq ▸ List.mem_cons_self _ _)
    simp only [visOK, List.all_cons] at ih ⊢
    rw [visAt_set_ne hne, ih (fun hmem => hni (List.mem_cons_of_mem _ hmem))]

lemma survives_set_of_notin {k : String} {vis : List α} {i0 : ℕ} {v2 : α}
    {req : List ℕ} (hg : getv JOINT_LM k = some req) (hni : i0 ∉ req) :
    survives k (vis.set i0 v2) = survives k vis := by
  simp only [survives, hg]
  exact visOK_set_of_notin hni

/-- C9: gating tests every required landmark of `JOINT_LM[k]` against
threshold 0.5; lowering a single landmark's visibility below 0.5 can only
remove surviving rows, never add any, and joints whose chains do not contain
that landmark gate identically. -/
theorem visibility_gating_monotone (ref tolM wM ua : List (String × ℚ))
    (vis : List ℚ) (i0 : ℕ) (v2 : ℚ) (hlen : i0 < vis.length)
    (hv : v2 < 1 / 2) :
    (∀ r ∈ mkRows ref tolM wM ua (vis.set i0 v2), r ∈ mkRows ref tolM wM ua vis)
    ∧ (∀ (k : String) (req : List ℕ), getv JOINT_LM k = some req → i0 ∉ req →
        survives k (vis.set i0 v2) = survives k vis)
    ∧ (∀ (k : String) (req : List ℕ), getv JOINT_LM k = some req →
        (survives k vis = true ↔ ∀ i ∈ req, (1 / 2 : ℚ) ≤ visAt vis i)) := by
  refine ⟨?_, fun k req hg hni => survives_set_of_notin hg hni, ?_⟩
  · induction ref with
    | nil => simp [mkRows]
    | cons p rest ih =>
      obtain ⟨k, rv⟩ := p
      intro r hr
      rw [mkRows] at hr ⊢
      rcases hu : getv ua k with _ | u
      · simp only [hu] at hr ⊢
        exact ih r hr
      · by_cases hs2 : survives k (vis.set i0 v2)
        · have hs : survives k vis = true := survives_set_mono hlen hv hs2
          simp only [hu, hs2, hs, if_true, List.mem_cons] at hr ⊢
          rcases hr with rfl | hr
          · exact Or.inl rfl
          · exact Or.inr (ih r hr)
        · simp only [hu, hs2, if_false] at hr
          by_cases hs : survives k vis
          · simp only [hu, hs, if_true, List.mem_cons]
            exact Or.inr (ih r hr)
          · simp only [hu, hs, if_false]
            exact ih r hr
  · intro k req hg
    simp only [survives, hg, visOK, List.all_eq_true, decide_eq_true_eq]

/-- Witness for C9: zeroing landmark 0 (the nose) of the full-visibility
frame. -/
theorem visibility_gating_monotone_witness :
    0 < visFull.length ∧ (0 : ℚ) < 1 / 2 ∧
    (∀ r ∈ mkRows [("left_elbow", (90 : ℚ)), ("left_knee", 170)]
        [("left_elbow", 15), ("left_knee", 20)]
        [("left_elbow", 1), ("left_knee", 1)] uaC2 (visFull.set 0 0),
      r ∈ mkRows [("left_elbow", (90 : ℚ)), ("left_knee", 170)]
        [("left_elbow", 15), ("left_knee", 20)]
        [("left_elbow", 1), ("left_knee", 1)] uaC2 visFull) := by
  refine ⟨by simp [visFull], by norm_num, ?_⟩
  exact (visibility_gating_monotone [("left_elbow", (90 : ℚ)), ("left_knee", 170)]
    [("left_elbow", 15), ("left_knee", 20)] [("left_elbow", 1), ("left_knee", 1)]
    uaC2 visFull 0 0 (by simp [visFull]) (by norm_num)).1

end Workout

